import Mathlib

/-!
Shallow embedding of the Account & Ledger Engine of `src/main.py`
(a Telegram coin-ledger bot backed by two SQLite tables, `users` and
`transactions`).

The `users` table is modelled as a `List User` (rows in insertion order;
`SELECT ... WHERE telegram_id=?` with `fetchone()` becomes `List.find?`,
`UPDATE ... WHERE telegram_id=?` becomes a `List.map` that rewrites every
matching row).  The append-only `transactions` table is a `List Txn`, with
`INSERT` appending at the end.  Timestamps (`datetime.utcnow()`) are an
external input, modelled as a `Nat` argument `now`.  The environment-derived
constants `NEW_USER_COINS`, `REFERRAL_REWARD`, `COIN_COST_PER_SEARCH` are
gathered in a `Config` parameter.
-/

/-- A row of the `users` table (`init_db`, src/main.py lines 45-53). -/
structure User where
  telegram_id : Int
  username : String
  referral_code : String
  referred_by : Option Int
  coins : Int
  created_at : Nat
deriving Repr, DecidableEq

/-- A row of the `transactions` table (`init_db`, src/main.py lines 54-61). -/
structure Txn where
  telegram_id : Int
  kind : String
  amount : Int
  note : String
  created_at : Nat
deriving Repr, DecidableEq

/-- The whole datastore: both tables. -/
structure DB where
  users : List User
  transactions : List Txn
deriving Repr, DecidableEq

/-- The empty datastore, as produced by `init_db`. -/
def DB.empty : DB := ⟨[], []⟩

/-- Environment configuration consumed by the engine. -/
structure Config where
  NEW_USER_COINS : Int
  REFERRAL_REWARD : Int
  COIN_COST_PER_SEARCH : Int
deriving Repr, DecidableEq

/-- Semantics of `UPDATE users SET ... WHERE telegram_id=?`: rewrite every
matching row by `g`, leave the rest alone. -/
def sqlUpdateUsers (tg_id : Int) (g : User → User) (l : List User) : List User :=
  l.map fun u => if u.telegram_id == tg_id then g u else u

/-- `generate_referral_code` (src/main.py line 71). -/
def generate_referral_code (tg_id : Int) : String :=
  "r" ++ toString tg_id

/-- `get_user_by_tg` (src/main.py lines 74-80): first row whose
`telegram_id` matches, if any. -/
def get_user_by_tg (tg_id : Int) (db : DB) : Option User :=
  db.users.find? fun u => u.telegram_id == tg_id

/-- `get_user_by_refcode` (src/main.py lines 82-88). -/
def get_user_by_refcode (code : String) (db : DB) : Option User :=
  db.users.find? fun u => u.referral_code == code

/-- `ensure_user` (src/main.py lines 102-125): returns the new state and
`True` iff a new user row was created.  The Telegram user is passed as its
id and optional username; `username or f"user{tg_id}"` becomes `getD`. -/
def ensure_user (cfg : Config) (tg_id : Int) (username : Option String)
    (now : Nat) (db : DB) : DB × Bool :=
  if (get_user_by_tg tg_id db).isSome then
    (db, false)
  else
    let uname := username.getD ("user" ++ toString tg_id)
    let refcode := generate_referral_code tg_id
    ({ users := db.users ++ [⟨tg_id, uname, refcode, none, cfg.NEW_USER_COINS, now⟩],
       transactions := db.transactions ++
         [⟨tg_id, "reward", cfg.NEW_USER_COINS, "new_user_bonus", now⟩] },
     true)

/-- `award_coins` (src/main.py lines 127-137): `UPDATE users SET coins =
coins + ? WHERE telegram_id=?` followed unconditionally by a transaction
`INSERT`. -/
def award_coins (tg_id : Int) (amount : Int) (kind : String) (note : String)
    (now : Nat) (db : DB) : DB :=
  { users := sqlUpdateUsers tg_id (fun u => { u with coins := u.coins + amount }) db.users,
    transactions := db.transactions ++ [⟨tg_id, kind, amount, note, now⟩] }

/-- `set_coins` (src/main.py lines 139-149): `UPDATE users SET coins = ?`
followed unconditionally by an `admin_set` transaction `INSERT` recording
the new absolute value. -/
def set_coins (tg_id : Int) (amount : Int) (now : Nat) (db : DB) : DB :=
  { users := sqlUpdateUsers tg_id (fun u => { u with coins := amount }) db.users,
    transactions := db.transactions ++
      [⟨tg_id, "admin_set", amount, "admin_set_coins", now⟩] }

/-- `deduct_coins` (src/main.py lines 151-171): returns the new state plus
the `(ok, reason)` pair of the source. -/
def deduct_coins (tg_id : Int) (amount : Int) (now : Nat) (db : DB) :
    DB × Bool × Option String :=
  match get_user_by_tg tg_id db with
  | none => (db, false, some "user_not_found")
  | some u =>
    if u.coins < amount then
      (db, false, some "insufficient")
    else
      ({ users := sqlUpdateUsers tg_id (fun v => { v with coins := v.coins - amount }) db.users,
         transactions := db.transactions ++
           [⟨tg_id, "search", -amount, "osint_search", now⟩] },
       true, none)

/-- `get_balance` (src/main.py lines 173-179): `row[0] if row else 0`. -/
def get_balance (tg_id : Int) (db : DB) : Int :=
  match get_user_by_tg tg_id db with
  | some u => u.coins
  | none => 0

/-- Python's `str.strip()`: drop leading and trailing whitespace.
Modelled on the underlying character list (`String.trim`'s auxiliaries do
not reduce); agrees with `.strip()` on the unicode-whitespace set. -/
def pyStrip (s : String) : String :=
  ⟨((s.data.dropWhile Char.isWhitespace).reverse.dropWhile Char.isWhitespace).reverse⟩

/-- The referral-handling part of `start_cmd` (src/main.py lines 207-239):
`ensure_user` first, then, when an argument is present, resolve it as a
referral code; on a hit by a different user whose row records the caller
with `referred_by` still NULL, set `referred_by` and award both sides
`REFERRAL_REWARD`, logged as `referral` (referrer first, then caller).
The chat reply at the end touches no state and is omitted. -/
def start_cmd (cfg : Config) (tg_id : Int) (username : Option String)
    (args : List String) (now : Nat) (db : DB) : DB :=
  let db1 := (ensure_user cfg tg_id username now db).1
  match args with
  | [] => db1
  | a :: _ =>
    let ref := pyStrip a
    match get_user_by_refcode ref db1 with
    | none => db1
    | some refrow =>
      let ref_tg_id := refrow.telegram_id
      if ref_tg_id ≠ tg_id then
        match get_user_by_tg tg_id db1 with
        | none => db1
        | some r =>
          if r.referred_by = none then
            let db2 : DB :=
              { db1 with users := (sqlUpdateUsers tg_id
                  (fun u => { u with referred_by := some ref_tg_id }) db1.users) }
            let db3 := award_coins ref_tg_id cfg.REFERRAL_REWARD "referral"
              ("referred " ++ toString tg_id) now db2
            award_coins tg_id cfg.REFERRAL_REWARD "referral"
              ("referred_by " ++ toString ref_tg_id) now db3
          else db1
      else db1

/-!
## Reconciliation

`reconcile i txns` replays identity `i`'s transaction log from oldest to
newest: an `admin_set` row resets the running value to its logged
(absolute) amount; every other row adds its (delta) amount.  This is the
"most recent `admin_set` amount (or 0 if none) plus the sum of the
amounts logged for that identity after it" reading, as the
characterisation lemmas below make precise. -/
def reconStep (i : Int) (acc : Int) (t : Txn) : Int :=
  if t.telegram_id == i then
    (if t.kind == "admin_set" then t.amount else acc + t.amount)
  else acc

/-- Replay of identity `i`'s transaction log; see `reconStep`. -/
def reconcile (i : Int) (txns : List Txn) : Int :=
  txns.foldl (reconStep i) 0

/-- Sum of the logged amounts of identity `i`'s transactions. -/
def sumAmounts (i : Int) (txns : List Txn) : Int :=
  ((txns.filter fun t => t.telegram_id == i).map Txn.amount).sum

theorem reconStep_foldl_no_reset (i : Int) (txns : List Txn)
    (h : ∀ t ∈ txns, t.telegram_id = i → t.kind ≠ "admin_set") (a : Int) :
    txns.foldl (reconStep i) a = a + sumAmounts i txns := by
  induction txns generalizing a with
  | nil => simp [sumAmounts]
  | cons t ts ih =>
    have ht := h t (List.mem_cons_self t ts)
    simp only [List.foldl_cons]
    rw [ih (fun s hs => h s (List.mem_cons_of_mem t hs))]
    by_cases hid : t.telegram_id = i
    · have hk : t.kind ≠ "admin_set" := ht hid
      simp [reconStep, sumAmounts, hid, hk]
      ring
    · simp [reconStep, sumAmounts, hid]

/-- When identity `i` has no `admin_set` row, `reconcile` is the plain sum
of its logged amounts. -/
theorem reconcile_eq_sum_of_no_reset (i : Int) (txns : List Txn)
    (h : ∀ t ∈ txns, t.telegram_id = i → t.kind ≠ "admin_set") :
    reconcile i txns = sumAmounts i txns := by
  simpa using reconStep_foldl_no_reset i txns h 0

/-- When the log splits as `l1 ++ t :: l2` with `t` an `admin_set` row for
`i` and no later `admin_set` row for `i`, `reconcile` is `t`'s absolute
amount plus the sum of `i`'s amounts logged after it: the spec's "most
recent `admin_set` is a reset point" reading. -/
theorem reconcile_split_at_reset (i : Int) (l1 l2 : List Txn) (t : Txn)
    (hid : t.telegram_id = i) (hk : t.kind = "admin_set")
    (h2 : ∀ s ∈ l2, s.telegram_id = i → s.kind ≠ "admin_set") :
    reconcile i (l1 ++ t :: l2) = t.amount + sumAmounts i l2 := by
  unfold reconcile
  rw [List.foldl_append, List.foldl_cons]
  have hstep : reconStep i (List.foldl (reconStep i) 0 l1) t = t.amount := by
    simp [reconStep, hid, hk]
  rw [hstep, reconStep_foldl_no_reset i l2 h2]

/-!
## Lookup lemmas for the UPDATE primitive
-/

theorem find?_tg_sqlUpdateUsers (i j : Int) (g : User → User)
    (hg : ∀ u, (g u).telegram_id = u.telegram_id) (l : List User) :
    (sqlUpdateUsers i g l).find? (fun u => u.telegram_id == j) =
      (l.find? fun u => u.telegram_id == j).map
        fun u => if u.telegram_id == i then g u else u := by
  unfold sqlUpdateUsers
  rw [List.find?_map]
  have hp : ((fun u : User => u.telegram_id == j) ∘
      fun u => if u.telegram_id == i then g u else u) =
        fun u : User => u.telegram_id == j := by
    funext u
    by_cases h : u.telegram_id == i <;> simp [Function.comp, h, hg]
  rw [hp]

theorem find?_tg_update_self (i : Int) (g : User → User)
    (hg : ∀ u, (g u).telegram_id = u.telegram_id) (l : List User) :
    (sqlUpdateUsers i g l).find? (fun u => u.telegram_id == i) =
      (l.find? fun u => u.telegram_id == i).map g := by
  rw [find?_tg_sqlUpdateUsers i i g hg l]
  cases hfind : l.find? fun u => u.telegram_id == i with
  | none => rfl
  | some u =>
    have hu := List.find?_some hfind
    simp only [Option.map_some']
    rw [if_pos hu]

theorem find?_tg_update_other (i j : Int) (hne : j ≠ i) (g : User → User)
    (hg : ∀ u, (g u).telegram_id = u.telegram_id) (l : List User) :
    (sqlUpdateUsers i g l).find? (fun u => u.telegram_id == j) =
      l.find? fun u => u.telegram_id == j := by
  rw [find?_tg_sqlUpdateUsers i j g hg l]
  cases hfind : l.find? fun u => u.telegram_id == j with
  | none => rfl
  | some u =>
    have hu := List.find?_some hfind
    have hj : u.telegram_id = j := by simpa [beq_iff_eq] using hu
    have : ¬ (u.telegram_id == i) = true := by simp [beq_iff_eq, hj]; exact hne
    simp only [Option.map_some']
    rw [if_neg this]

theorem sqlUpdateUsers_of_absent (i : Int) (g : User → User) (l : List User)
    (h : (l.find? fun u => u.telegram_id == i) = none) :
    sqlUpdateUsers i g l = l := by
  unfold sqlUpdateUsers
  have hall := List.find?_eq_none.mp h
  calc l.map (fun u => if u.telegram_id == i then g u else u)
      = l.map id := by
        apply List.map_congr_left
        intro u hu
        have := hall u hu
        simp only [id]
        rw [if_neg this]
    _ = l := List.map_id l

theorem get_user_by_tg_award_self (i a : Int) (k n : String) (t : Nat) (db : DB) :
    get_user_by_tg i (award_coins i a k n t db) =
      (get_user_by_tg i db).map fun u => { u with coins := u.coins + a } :=
  find?_tg_update_self i (fun u => { u with coins := u.coins + a }) (fun _ => rfl) db.users

theorem get_user_by_tg_award_other (i j a : Int) (hne : j ≠ i) (k n : String)
    (t : Nat) (db : DB) :
    get_user_by_tg j (award_coins i a k n t db) = get_user_by_tg j db :=
  find?_tg_update_other i j hne (fun u => { u with coins := u.coins + a }) (fun _ => rfl) db.users

theorem get_user_by_tg_set_self (i a : Int) (t : Nat) (db : DB) :
    get_user_by_tg i (set_coins i a t db) =
      (get_user_by_tg i db).map fun u => { u with coins := a } :=
  find?_tg_update_self i (fun u => { u with coins := a }) (fun _ => rfl) db.users

theorem get_user_by_tg_set_other (i j a : Int) (hne : j ≠ i) (t : Nat) (db : DB) :
    get_user_by_tg j (set_coins i a t db) = get_user_by_tg j db :=
  find?_tg_update_other i j hne (fun u => { u with coins := a }) (fun _ => rfl) db.users

theorem get_balance_award_self (i a : Int) (k n : String) (t : Nat) (db : DB)
    (u : User) (h : get_user_by_tg i db = some u) :
    get_balance i (award_coins i a k n t db) = u.coins + a := by
  unfold get_balance
  rw [get_user_by_tg_award_self, h]
  simp

theorem get_balance_award_other (i j a : Int) (hne : j ≠ i) (k n : String)
    (t : Nat) (db : DB) :
    get_balance j (award_coins i a k n t db) = get_balance j db := by
  unfold get_balance
  rw [get_user_by_tg_award_other i j a hne k n t db]

/-- A concrete one-user datastore, as produced by `ensure_user` for
identity 1 with username `alice` at time 0 and `NEW_USER_COINS = 1`. -/
def aliceUser : User := ⟨1, "alice", "r1", none, 1, 0⟩

/-- Concrete datastore holding only `aliceUser` and her signing bonus. -/
def dbOneUser : DB := ⟨[aliceUser], [⟨1, "reward", 1, "new_user_bonus", 0⟩]⟩

/-- Concrete configuration: every configured amount is 1, as in the
source defaults. -/
def cfgOne : Config := ⟨1, 1, 1⟩

theorem ensure_user_of_present (cfg : Config) (i : Int) (uname : Option String)
    (now : Nat) (db : DB) (h : (get_user_by_tg i db).isSome) :
    ensure_user cfg i uname now db = (db, false) := by
  unfold ensure_user
  rw [if_pos h]

/-- The user row `ensure_user` inserts for a fresh identity. -/
def freshUser (cfg : Config) (i : Int) (uname : Option String) (now : Nat) : User :=
  ⟨i, uname.getD ("user" ++ toString i), generate_referral_code i, none,
    cfg.NEW_USER_COINS, now⟩

theorem ensure_user_of_absent (cfg : Config) (i : Int) (uname : Option String)
    (now : Nat) (db : DB) (h : get_user_by_tg i db = none) :
    ensure_user cfg i uname now db =
      ({ users := db.users ++ [freshUser cfg i uname now],
         transactions := db.transactions ++
           [⟨i, "reward", cfg.NEW_USER_COINS, "new_user_bonus", now⟩] }, true) := by
  unfold ensure_user
  rw [h]
  rfl

theorem find?_tg_append_self (i : Int) (l : List User) (u : User)
    (hu : u.telegram_id = i) (h : (l.find? fun v => v.telegram_id == i) = none) :
    ((l ++ [u]).find? fun v => v.telegram_id == i) = some u := by
  rw [List.find?_append, h, Option.none_or]
  exact List.find?_cons_of_pos _ (by simp [hu])

theorem get_user_by_tg_ensure_fresh (cfg : Config) (i : Int) (uname : Option String)
    (now : Nat) (db : DB) (h : get_user_by_tg i db = none) :
    get_user_by_tg i (ensure_user cfg i uname now db).1 =
      some (freshUser cfg i uname now) := by
  rw [ensure_user_of_absent cfg i uname now db h]
  exact find?_tg_append_self i db.users _ rfl h

/-- Repeated provisioning of one identity: fold `ensure_user` over a list
of (username, time) call arguments. -/
def ensureSeq (cfg : Config) (tg_id : Int) (calls : List (Option String × Nat))
    (db : DB) : DB :=
  calls.foldl (fun s c => (ensure_user cfg tg_id c.1 c.2 s).1) db

theorem ensureSeq_of_present (cfg : Config) (i : Int)
    (calls : List (Option String × Nat)) (db : DB)
    (h : (get_user_by_tg i db).isSome) : ensureSeq cfg i calls db = db := by
  induction calls with
  | nil => rfl
  | cons c cs ih =>
    show ensureSeq cfg i cs (ensure_user cfg i c.1 c.2 db).1 = db
    rw [ensure_user_of_present cfg i c.1 c.2 db h]
    exact ih

theorem get_user_by_tg_award (i j a : Int) (k n : String) (t : Nat) (db : DB) :
    get_user_by_tg j (award_coins i a k n t db) =
      (get_user_by_tg j db).map
        fun u => if u.telegram_id == i then { u with coins := u.coins + a } else u :=
  find?_tg_sqlUpdateUsers i j (fun u => { u with coins := u.coins + a }) (fun _ => rfl) db.users

theorem referred_by_after_award (i j a : Int) (k n : String) (t : Nat) (db : DB)
    (v : User) (h : get_user_by_tg j db = some v) :
    ∃ v2, get_user_by_tg j (award_coins i a k n t db) = some v2 ∧
      v2.referred_by = v.referred_by := by
  rw [get_user_by_tg_award i j a k n t db, h]
  by_cases hc : v.telegram_id = i <;> simp [hc]

theorem get_user_by_tg_ensure_preserve (cfg : Config) (i j : Int)
    (uname : Option String) (now : Nat) (db : DB) (v : User)
    (h : get_user_by_tg j db = some v) :
    get_user_by_tg j (ensure_user cfg i uname now db).1 = some v := by
  by_cases hp : (get_user_by_tg i db).isSome
  · rw [ensure_user_of_present cfg i uname now db hp]
    exact h
  · have hn : get_user_by_tg i db = none := Option.not_isSome_iff_eq_none.mp hp
    rw [ensure_user_of_absent cfg i uname now db hn]
    show ((db.users ++ [freshUser cfg i uname now]).find? fun u => u.telegram_id == j) =
      some v
    rw [List.find?_append]
    unfold get_user_by_tg at h
    rw [h]
    rfl

/-- After `ensure_user`, the caller always has an account. -/
theorem get_user_by_tg_ensure_self_isSome (cfg : Config) (i : Int)
    (uname : Option String) (now : Nat) (db : DB) :
    (get_user_by_tg i (ensure_user cfg i uname now db).1).isSome := by
  by_cases hp : (get_user_by_tg i db).isSome
  · rw [ensure_user_of_present cfg i uname now db hp]
    exact hp
  · have hn := Option.not_isSome_iff_eq_none.mp hp
    rw [get_user_by_tg_ensure_fresh cfg i uname now db hn]
    rfl

/-!
## Branch-by-branch reduction of `start_cmd`
-/

theorem start_cmd_nil (cfg : Config) (i : Int) (uname : Option String) (now : Nat)
    (db : DB) : start_cmd cfg i uname [] now db = (ensure_user cfg i uname now db).1 :=
  rfl

theorem start_cmd_no_refrow (cfg : Config) (i : Int) (uname : Option String)
    (a : String) (rest : List String) (now : Nat) (db : DB)
    (h : get_user_by_refcode (pyStrip a) (ensure_user cfg i uname now db).1 = none) :
    start_cmd cfg i uname (a :: rest) now db = (ensure_user cfg i uname now db).1 := by
  simp only [start_cmd]
  rw [h]

theorem start_cmd_hit_self (cfg : Config) (i : Int) (uname : Option String)
    (a : String) (rest : List String) (now : Nat) (db : DB) (refrow : User)
    (h : get_user_by_refcode (pyStrip a) (ensure_user cfg i uname now db).1 = some refrow)
    (hself : refrow.telegram_id = i) :
    start_cmd cfg i uname (a :: rest) now db = (ensure_user cfg i uname now db).1 := by
  simp only [start_cmd]
  rw [h]
  simp [hself]

theorem start_cmd_already_referred (cfg : Config) (i : Int) (uname : Option String)
    (a : String) (rest : List String) (now : Nat) (db : DB) (refrow r : User) (x : Int)
    (h : get_user_by_refcode (pyStrip a) (ensure_user cfg i uname now db).1 = some refrow)
    (hne : refrow.telegram_id ≠ i)
    (hr : get_user_by_tg i (ensure_user cfg i uname now db).1 = some r)
    (hx : r.referred_by = some x) :
    start_cmd cfg i uname (a :: rest) now db = (ensure_user cfg i uname now db).1 := by
  simp only [start_cmd]
  rw [h, hr]
  simp [hne, hx]

theorem start_cmd_applies (cfg : Config) (i : Int) (uname : Option String)
    (a : String) (rest : List String) (now : Nat) (db : DB) (refrow r : User)
    (h : get_user_by_refcode (pyStrip a) (ensure_user cfg i uname now db).1 = some refrow)
    (hne : refrow.telegram_id ≠ i)
    (hr : get_user_by_tg i (ensure_user cfg i uname now db).1 = some r)
    (hnone : r.referred_by = none) :
    start_cmd cfg i uname (a :: rest) now db =
      award_coins i cfg.REFERRAL_REWARD "referral"
        ("referred_by " ++ toString refrow.telegram_id) now
        (award_coins refrow.telegram_id cfg.REFERRAL_REWARD "referral"
          ("referred " ++ toString i) now
          { (ensure_user cfg i uname now db).1 with users :=
              (sqlUpdateUsers i (fun u => { u with referred_by := some refrow.telegram_id })
                (ensure_user cfg i uname now db).1.users) }) := by
  simp only [start_cmd]
  rw [h, hr]
  simp [hne, hnone]

/-- Claim C9: for an identity with no account, the balance query returns
0 and does not fail — absence is not an error for `get_balance`. -/
theorem claim_C9_get_balance_absent (i : Int) (db : DB)
    (h : get_user_by_tg i db = none) : get_balance i db = 0 := by
  unfold get_balance
  rw [h]

theorem claim_C9_witness :
    get_user_by_tg 7 DB.empty = none ∧ get_balance 7 DB.empty = 0 :=
  ⟨rfl, claim_C9_get_balance_absent 7 DB.empty rfl⟩

/-- Claim C10: crediting an identity with no account does not fail and
creates no account: the users table is unchanged (so the lookup still
misses and the balance query still returns 0), yet exactly one
transaction row for that identity is appended, leaving its transaction
log non-empty. -/
theorem claim_C10_award_absent (i a : Int) (k n : String) (t : Nat) (db : DB)
    (h : get_user_by_tg i db = none) :
    (award_coins i a k n t db).users = db.users ∧
    get_user_by_tg i (award_coins i a k n t db) = none ∧
    get_balance i (award_coins i a k n t db) = 0 ∧
    (award_coins i a k n t db).transactions = db.transactions ++ [⟨i, k, a, n, t⟩] ∧
    ((award_coins i a k n t db).transactions.filter fun s => s.telegram_id == i) ≠ [] := by
  have husers : (award_coins i a k n t db).users = db.users :=
    sqlUpdateUsers_of_absent i _ db.users h
  have hlook : get_user_by_tg i (award_coins i a k n t db) = none := by
    unfold get_user_by_tg
    rw [husers]
    exact h
  refine ⟨husers, hlook, ?_, rfl, ?_⟩
  · unfold get_balance
    rw [hlook]
  · show ((db.transactions ++ [(⟨i, k, a, n, t⟩ : Txn)]).filter
      fun s => s.telegram_id == i) ≠ []
    rw [List.filter_append]
    have : ([(⟨i, k, a, n, t⟩ : Txn)].filter fun s => s.telegram_id == i) =
        [⟨i, k, a, n, t⟩] := by simp
    rw [this]
    exact List.append_ne_nil_of_right_ne_nil _ (by simp)

theorem claim_C10_witness :
    (award_coins 5 3 "admin_adjust" "" 0 DB.empty).users = DB.empty.users ∧
    get_user_by_tg 5 (award_coins 5 3 "admin_adjust" "" 0 DB.empty) = none ∧
    get_balance 5 (award_coins 5 3 "admin_adjust" "" 0 DB.empty) = 0 ∧
    (award_coins 5 3 "admin_adjust" "" 0 DB.empty).transactions =
      DB.empty.transactions ++ [⟨5, "admin_adjust", 3, "", 0⟩] ∧
    ((award_coins 5 3 "admin_adjust" "" 0 DB.empty).transactions.filter
      fun s => s.telegram_id == 5) ≠ [] :=
  claim_C10_award_absent 5 3 "admin_adjust" "" 0 DB.empty rfl

/-- Claim C7: `set_coins` on an existing identity makes the subsequent
balance query return exactly the new amount regardless of the prior
balance, and appends exactly one `admin_set` transaction logging the new
absolute value. -/
theorem claim_C7_set_coins (i a : Int) (t : Nat) (db : DB)
    (h : (get_user_by_tg i db).isSome) :
    get_balance i (set_coins i a t db) = a ∧
    (set_coins i a t db).transactions =
      db.transactions ++ [⟨i, "admin_set", a, "admin_set_coins", t⟩] := by
  obtain ⟨u, hu⟩ := Option.isSome_iff_exists.mp h
  refine ⟨?_, rfl⟩
  unfold get_balance
  rw [get_user_by_tg_set_self, hu]
  simp

theorem claim_C7_witness :
    get_balance 1 (set_coins 1 100 3 dbOneUser) = 100 ∧
    (set_coins 1 100 3 dbOneUser).transactions =
      dbOneUser.transactions ++ [⟨1, "admin_set", 100, "admin_set_coins", 3⟩] :=
  claim_C7_set_coins 1 100 3 dbOneUser (by decide)

/-- Claim C1: `deduct_coins` fails with `user_not_found` when the identity
has no account and with `insufficient` when the balance is strictly below
the requested amount, in both cases returning the state unchanged (so the
balance is untouched — in particular, a failed debit never drives it
negative — and no transaction is appended); otherwise it subtracts the
amount from the balance and appends exactly one `search` transaction of
amount `-amount`. -/
theorem claim_C1_deduct_coins (i a : Int) (t : Nat) (db : DB) :
    (get_user_by_tg i db = none →
      deduct_coins i a t db = (db, false, some "user_not_found")) ∧
    (∀ u, get_user_by_tg i db = some u → u.coins < a →
      deduct_coins i a t db = (db, false, some "insufficient")) ∧
    (∀ u, get_user_by_tg i db = some u → a ≤ u.coins →
      (deduct_coins i a t db).2.1 = true ∧
      get_balance i (deduct_coins i a t db).1 = get_balance i db - a ∧
      (deduct_coins i a t db).1.transactions =
        db.transactions ++ [⟨i, "search", -a, "osint_search", t⟩]) := by
  refine ⟨?_, ?_, ?_⟩
  · intro h
    unfold deduct_coins
    rw [h]
  · intro u hu hlt
    unfold deduct_coins
    rw [hu]
    simp only [if_pos hlt]
  · intro u hu hle
    have hnotlt : ¬ u.coins < a := not_lt.mpr hle
    have hred : deduct_coins i a t db =
        ({ users := sqlUpdateUsers i (fun v => { v with coins := v.coins - a }) db.users,
           transactions := db.transactions ++ [⟨i, "search", -a, "osint_search", t⟩] },
         true, none) := by
      unfold deduct_coins
      rw [hu]
      simp only [if_neg hnotlt]
    refine ⟨by rw [hred], ?_, by rw [hred]⟩
    rw [hred]
    unfold get_balance
    show (match (sqlUpdateUsers i (fun v => { v with coins := v.coins - a })
        db.users).find? (fun u => u.telegram_id == i) with
      | some u => u.coins
      | none => 0) = _
    rw [find?_tg_update_self i (fun v => { v with coins := v.coins - a }) (fun _ => rfl) db.users]
    have hu' : (db.users.find? fun u => u.telegram_id == i) = some u := hu
    rw [hu', hu]
    simp

/-- Claim C2: provisioning is idempotent per identity.  A call that finds
the account returns `(db, false)`, changing nothing and granting no bonus;
a call on an absent identity reports creation, leaves the balance at the
configured signing bonus, appends exactly one `reward` transaction, and
leaves the account present; hence over any sequence of calls, every call
after the first creating one is a no-op: a sequence starting from an
absent identity collapses to its first call, and one starting from a
present identity collapses to nothing. -/
theorem claim_C2_ensure_user_idempotent (cfg : Config) (i : Int) (db : DB) :
    (∀ uname now, (get_user_by_tg i db).isSome →
      ensure_user cfg i uname now db = (db, false)) ∧
    (∀ uname now, get_user_by_tg i db = none →
      (ensure_user cfg i uname now db).2 = true ∧
      get_balance i (ensure_user cfg i uname now db).1 = cfg.NEW_USER_COINS ∧
      (ensure_user cfg i uname now db).1.transactions = db.transactions ++
        [⟨i, "reward", cfg.NEW_USER_COINS, "new_user_bonus", now⟩] ∧
      (get_user_by_tg i (ensure_user cfg i uname now db).1).isSome) ∧
    ((get_user_by_tg i db).isSome → ∀ calls, ensureSeq cfg i calls db = db) ∧
    (get_user_by_tg i db = none → ∀ c calls,
      ensureSeq cfg i (c :: calls) db = (ensure_user cfg i c.1 c.2 db).1) := by
  refine ⟨?_, ?_, ?_, ?_⟩
  · intro uname now h
    exact ensure_user_of_present cfg i uname now db h
  · intro uname now h
    have hf := get_user_by_tg_ensure_fresh cfg i uname now db h
    refine ⟨?_, ?_, ?_, ?_⟩
    · rw [ensure_user_of_absent cfg i uname now db h]
    · unfold get_balance
      rw [hf]
      rfl
    · rw [ensure_user_of_absent cfg i uname now db h]
    · rw [hf]
      rfl
  · intro h calls
    exact ensureSeq_of_present cfg i calls db h
  · intro h c calls
    show ensureSeq cfg i calls (ensure_user cfg i c.1 c.2 db).1 =
      (ensure_user cfg i c.1 c.2 db).1
    apply ensureSeq_of_present
    rw [get_user_by_tg_ensure_fresh cfg i c.1 c.2 db h]
    rfl

theorem claim_C2_witness :
    ((ensure_user cfgOne 42 (some "alice") 0 DB.empty).2 = true ∧
      get_balance 42 (ensure_user cfgOne 42 (some "alice") 0 DB.empty).1 =
        cfgOne.NEW_USER_COINS ∧
      (ensure_user cfgOne 42 (some "alice") 0 DB.empty).1.transactions =
        DB.empty.transactions ++
          [⟨42, "reward", cfgOne.NEW_USER_COINS, "new_user_bonus", 0⟩] ∧
      (get_user_by_tg 42 (ensure_user cfgOne 42 (some "alice") 0 DB.empty).1).isSome) ∧
    ensureSeq cfgOne 42 [(some "alice", 0), (some "alice", 3), (none, 9)] DB.empty =
      (ensure_user cfgOne 42 (some "alice") 0 DB.empty).1 :=
  ⟨(claim_C2_ensure_user_idempotent cfgOne 42 DB.empty).2.1 (some "alice") 0 rfl,
   (claim_C2_ensure_user_idempotent cfgOne 42 DB.empty).2.2.2 rfl
     (some "alice", 0) [(some "alice", 3), (none, 9)]⟩

theorem claim_C1_witness :
    (deduct_coins 1 1 0 dbOneUser).2.1 = true ∧
    get_balance 1 (deduct_coins 1 1 0 dbOneUser).1 = get_balance 1 dbOneUser - 1 ∧
    (deduct_coins 1 1 0 dbOneUser).1.transactions =
      dbOneUser.transactions ++ [⟨1, "search", -1, "osint_search", 0⟩] :=
  (claim_C1_deduct_coins 1 1 0 dbOneUser).2.2 aliceUser rfl (by decide)

/-- Claim C4: `referred_by` is set at most once.  When the caller's
account already records a referrer, the whole `start_cmd` call — with any
referral token — leaves the state unchanged, so nothing is overwritten
and no further referral reward is granted; and more generally any account
whose `referred_by` is already set keeps exactly that value across any
`start_cmd` call. -/
theorem claim_C4_referred_by_once (cfg : Config) (i : Int) (uname : Option String)
    (args : List String) (now : Nat) (db : DB) :
    (∀ u x, get_user_by_tg i db = some u → u.referred_by = some x →
      start_cmd cfg i uname args now db = db) ∧
    (∀ j v x, get_user_by_tg j db = some v → v.referred_by = some x →
      ∃ v2, get_user_by_tg j (start_cmd cfg i uname args now db) = some v2 ∧
        v2.referred_by = some x) := by
  constructor
  · intro u x hu hx
    have hp : (get_user_by_tg i db).isSome := by rw [hu]; rfl
    have hens : (ensure_user cfg i uname now db).1 = db := by
      rw [ensure_user_of_present cfg i uname now db hp]
    cases args with
    | nil => rw [start_cmd_nil, hens]
    | cons a rest =>
      cases hrc : get_user_by_refcode (pyStrip a) (ensure_user cfg i uname now db).1 with
      | none => rw [start_cmd_no_refrow cfg i uname a rest now db hrc, hens]
      | some refrow =>
        by_cases hself : refrow.telegram_id = i
        · rw [start_cmd_hit_self cfg i uname a rest now db refrow hrc hself, hens]
        · have hr : get_user_by_tg i (ensure_user cfg i uname now db).1 = some u := by
            rw [hens]
            exact hu
          rw [start_cmd_already_referred cfg i uname a rest now db refrow u x
            hrc hself hr hx, hens]
  · intro j v x hv hx
    have hv1 : get_user_by_tg j (ensure_user cfg i uname now db).1 = some v :=
      get_user_by_tg_ensure_preserve cfg i j uname now db v hv
    cases args with
    | nil =>
      rw [start_cmd_nil]
      exact ⟨v, hv1, hx⟩
    | cons a rest =>
      cases hrc : get_user_by_refcode (pyStrip a) (ensure_user cfg i uname now db).1 with
      | none =>
        rw [start_cmd_no_refrow cfg i uname a rest now db hrc]
        exact ⟨v, hv1, hx⟩
      | some refrow =>
        by_cases hself : refrow.telegram_id = i
        · rw [start_cmd_hit_self cfg i uname a rest now db refrow hrc hself]
          exact ⟨v, hv1, hx⟩
        · obtain ⟨r, hr⟩ := Option.isSome_iff_exists.mp
            (get_user_by_tg_ensure_self_isSome cfg i uname now db)
          cases hrb : r.referred_by with
          | some y =>
            rw [start_cmd_already_referred cfg i uname a rest now db refrow r y
              hrc hself hr hrb]
            exact ⟨v, hv1, hx⟩
          | none =>
            rw [start_cmd_applies cfg i uname a rest now db refrow r hrc hself hr hrb]
            by_cases hji : j = i
            · exfalso
              rw [hji] at hv1
              have hvr : v = r := Option.some.inj (hv1.symm.trans hr)
              rw [hvr, hrb] at hx
              exact Option.noConfusion hx
            · have h2 : get_user_by_tg j
                  ({ (ensure_user cfg i uname now db).1 with users :=
                    (sqlUpdateUsers i
                      (fun u => { u with referred_by := some refrow.telegram_id })
                      (ensure_user cfg i uname now db).1.users) }) = some v := by
                show ((sqlUpdateUsers i
                  (fun u => { u with referred_by := some refrow.telegram_id })
                  (ensure_user cfg i uname now db).1.users).find?
                    fun u => u.telegram_id == j) = some v
                rw [find?_tg_update_other i j hji
                  (fun u => { u with referred_by := some refrow.telegram_id })
                  (fun _ => rfl) (ensure_user cfg i uname now db).1.users]
                exact hv1
              obtain ⟨v2, hv2, hrb2⟩ := referred_by_after_award refrow.telegram_id j
                cfg.REFERRAL_REWARD "referral" ("referred " ++ toString i) now _ v h2
              obtain ⟨v3, hv3, hrb3⟩ := referred_by_after_award i j
                cfg.REFERRAL_REWARD "referral"
                ("referred_by " ++ toString refrow.telegram_id) now _ v2 hv2
              exact ⟨v3, hv3, by rw [hrb3, hrb2, hx]⟩

/-- Concrete datastore: user 42 is unreferred, user 1 was already referred
by 42. -/
def dbReferred : DB :=
  ⟨[⟨42, "bob", "r42", none, 1, 0⟩, ⟨1, "alice", "r1", some 42, 1, 0⟩], []⟩

theorem claim_C4_witness :
    start_cmd cfgOne 1 (some "alice") ["r42"] 0 dbReferred = dbReferred :=
  (claim_C4_referred_by_once cfgOne 1 (some "alice") ["r42"] 0 dbReferred).1
    ⟨1, "alice", "r1", some 42, 1, 0⟩ 42 (by decide) rfl

/-- Claim C5: a referral token resolving to the caller's own account makes
the referral step a ledger no-op: the final state is exactly the state
after plain provisioning, so no coins are credited to anyone, the set of
`referral` transactions is unchanged, and the caller's `referred_by`
remains what provisioning left it (in particular `none` for a fresh
account, and unchanged for an existing one). -/
theorem claim_C5_self_referral (cfg : Config) (i : Int) (uname : Option String)
    (a : String) (rest : List String) (now : Nat) (db : DB) (refrow : User)
    (h : get_user_by_refcode (pyStrip a) (ensure_user cfg i uname now db).1 = some refrow)
    (hself : refrow.telegram_id = i) :
    start_cmd cfg i uname (a :: rest) now db = (ensure_user cfg i uname now db).1 ∧
    ((start_cmd cfg i uname (a :: rest) now db).transactions.filter
        fun t => t.kind == "referral") =
      (db.transactions.filter fun t => t.kind == "referral") ∧
    (get_user_by_tg i db = none →
      ∃ u, get_user_by_tg i (start_cmd cfg i uname (a :: rest) now db) = some u ∧
        u.referred_by = none) ∧
    (∀ u, get_user_by_tg i db = some u →
      ∃ u2, get_user_by_tg i (start_cmd cfg i uname (a :: rest) now db) = some u2 ∧
        u2.referred_by = u.referred_by) := by
  have hred := start_cmd_hit_self cfg i uname a rest now db refrow h hself
  refine ⟨hred, ?_, ?_, ?_⟩
  · rw [hred]
    by_cases hp : (get_user_by_tg i db).isSome
    · rw [ensure_user_of_present cfg i uname now db hp]
    · have hn := Option.not_isSome_iff_eq_none.mp hp
      rw [ensure_user_of_absent cfg i uname now db hn]
      show ((db.transactions ++
        [(⟨i, "reward", cfg.NEW_USER_COINS, "new_user_bonus", now⟩ : Txn)]).filter
          fun t => t.kind == "referral") = _
      rw [List.filter_append]
      have hone : (([⟨i, "reward", cfg.NEW_USER_COINS, "new_user_bonus", now⟩] :
          List Txn).filter fun t => t.kind == "referral") = [] := rfl
      rw [hone, List.append_nil]
  · intro hn
    rw [hred, get_user_by_tg_ensure_fresh cfg i uname now db hn]
    exact ⟨freshUser cfg i uname now, rfl, rfl⟩
  · intro u hu
    rw [hred]
    exact ⟨u, get_user_by_tg_ensure_preserve cfg i i uname now db u hu, rfl⟩

theorem claim_C5_witness :
    start_cmd cfgOne 1 (some "alice") ["r1"] 0 DB.empty =
      (ensure_user cfgOne 1 (some "alice") 0 DB.empty).1 ∧
    (∃ u, get_user_by_tg 1 (start_cmd cfgOne 1 (some "alice") ["r1"] 0 DB.empty) =
        some u ∧ u.referred_by = none) := by
  have h := claim_C5_self_referral cfgOne 1 (some "alice") "r1" [] 0 DB.empty
    (freshUser cfgOne 1 (some "alice") 0) (by decide) rfl
  exact ⟨h.1, h.2.2.1 rfl⟩

/-- Claim C6: when the referral token resolves to a different existing
account and the caller's `referred_by` is still null, `start_cmd` sets
the caller's `referred_by` to the referrer's identity, credits referrer
and caller with the configured reward, and appends exactly two `referral`
transactions — the referrer's first, then the caller's — each of amount
`REFERRAL_REWARD`. -/
theorem claim_C6_referral_applies (cfg : Config) (i : Int) (uname : Option String)
    (a : String) (rest : List String) (now : Nat) (db : DB) (refrow r : User)
    (h : get_user_by_refcode (pyStrip a) (ensure_user cfg i uname now db).1 = some refrow)
    (hne : refrow.telegram_id ≠ i)
    (hr : get_user_by_tg i (ensure_user cfg i uname now db).1 = some r)
    (hnone : r.referred_by = none) :
    (∃ u2, get_user_by_tg i (start_cmd cfg i uname (a :: rest) now db) = some u2 ∧
      u2.referred_by = some refrow.telegram_id) ∧
    get_balance refrow.telegram_id (start_cmd cfg i uname (a :: rest) now db) =
      get_balance refrow.telegram_id (ensure_user cfg i uname now db).1 +
        cfg.REFERRAL_REWARD ∧
    get_balance i (start_cmd cfg i uname (a :: rest) now db) =
      get_balance i (ensure_user cfg i uname now db).1 + cfg.REFERRAL_REWARD ∧
    (start_cmd cfg i uname (a :: rest) now db).transactions =
      (ensure_user cfg i uname now db).1.transactions ++
        [⟨refrow.telegram_id, "referral", cfg.REFERRAL_REWARD,
          "referred " ++ toString i, now⟩,
         ⟨i, "referral", cfg.REFERRAL_REWARD,
          "referred_by " ++ toString refrow.telegram_id, now⟩] := by
  have hred := start_cmd_applies cfg i uname a rest now db refrow r h hne hr hnone
  set db1 := (ensure_user cfg i uname now db).1 with hdb1
  set g := fun u : User => { u with referred_by := some refrow.telegram_id } with hg
  set dbU : DB := { db1 with users := (sqlUpdateUsers i g db1.users) } with hdbU
  have hgid : ∀ u : User, (g u).telegram_id = u.telegram_id := fun _ => rfl
  have hlookU : get_user_by_tg i dbU = some (g r) := by
    show ((sqlUpdateUsers i g db1.users).find? fun u => u.telegram_id == i) = some (g r)
    rw [find?_tg_update_self i g hgid db1.users]
    rw [show (db1.users.find? fun u => u.telegram_id == i) = some r from hr]
    rfl
  have hlookU_ref : get_user_by_tg refrow.telegram_id dbU =
      get_user_by_tg refrow.telegram_id db1 := by
    show ((sqlUpdateUsers i g db1.users).find? fun u => u.telegram_id == refrow.telegram_id) = _
    rw [find?_tg_update_other i refrow.telegram_id hne g hgid db1.users]
    rfl
  have href_some : ∃ w, get_user_by_tg refrow.telegram_id db1 = some w := by
    have hmem : refrow ∈ db1.users := List.mem_of_find?_eq_some h
    have : ((db1.users.find? fun u => u.telegram_id == refrow.telegram_id)).isSome := by
      rw [List.find?_isSome]
      exact ⟨refrow, hmem, by simp⟩
    exact Option.isSome_iff_exists.mp this
  obtain ⟨w, hw⟩ := href_some
  have hwU : get_user_by_tg refrow.telegram_id dbU = some w := by rw [hlookU_ref, hw]
  refine ⟨?_, ?_, ?_, ?_⟩
  · rw [hred]
    have hlook2 : get_user_by_tg i (award_coins refrow.telegram_id cfg.REFERRAL_REWARD
        "referral" ("referred " ++ toString i) now dbU) = some (g r) := by
      rw [get_user_by_tg_award_other refrow.telegram_id i cfg.REFERRAL_REWARD
        (Ne.symm hne) "referral" ("referred " ++ toString i) now dbU]
      exact hlookU
    obtain ⟨v2, hv2, hrb2⟩ := referred_by_after_award i i cfg.REFERRAL_REWARD "referral"
      ("referred_by " ++ toString refrow.telegram_id) now _ (g r) hlook2
    exact ⟨v2, hv2, by rw [hrb2]⟩
  · rw [hred]
    have hb2 : get_balance refrow.telegram_id (award_coins refrow.telegram_id
        cfg.REFERRAL_REWARD "referral" ("referred " ++ toString i) now dbU) =
        w.coins + cfg.REFERRAL_REWARD :=
      get_balance_award_self refrow.telegram_id cfg.REFERRAL_REWARD "referral"
        ("referred " ++ toString i) now dbU w hwU
    rw [get_balance_award_other i refrow.telegram_id cfg.REFERRAL_REWARD hne
      "referral" ("referred_by " ++ toString refrow.telegram_id) now _, hb2]
    unfold get_balance
    rw [hw]
  · rw [hred]
    have hlook2 : get_user_by_tg i (award_coins refrow.telegram_id cfg.REFERRAL_REWARD
        "referral" ("referred " ++ toString i) now dbU) = some (g r) := by
      rw [get_user_by_tg_award_other refrow.telegram_id i cfg.REFERRAL_REWARD
        (Ne.symm hne) "referral" ("referred " ++ toString i) now dbU]
      exact hlookU
    rw [get_balance_award_self i cfg.REFERRAL_REWARD "referral"
      ("referred_by " ++ toString refrow.telegram_id) now _ (g r) hlook2]
    unfold get_balance
    rw [hr]
  · rw [hred]
    show (dbU.transactions ++ [(⟨refrow.telegram_id, "referral", cfg.REFERRAL_REWARD,
        "referred " ++ toString i, now⟩ : Txn)]) ++
      [(⟨i, "referral", cfg.REFERRAL_REWARD,
        "referred_by " ++ toString refrow.telegram_id, now⟩ : Txn)] = _
    rw [List.append_assoc]
    rfl

/-- Concrete datastore: a single unreferred user 42 with referral code
`r42`, ready to refer a fresh caller. -/
def dbReferrer : DB := ⟨[⟨42, "bob", "r42", none, 1, 0⟩], []⟩

theorem claim_C6_witness :
    (∃ u2, get_user_by_tg 7 (start_cmd cfgOne 7 (some "carol") ["r42"] 1 dbReferrer) =
      some u2 ∧ u2.referred_by = some 42) ∧
    get_balance 42 (start_cmd cfgOne 7 (some "carol") ["r42"] 1 dbReferrer) =
      get_balance 42 (ensure_user cfgOne 7 (some "carol") 1 dbReferrer).1 +
        cfgOne.REFERRAL_REWARD ∧
    get_balance 7 (start_cmd cfgOne 7 (some "carol") ["r42"] 1 dbReferrer) =
      get_balance 7 (ensure_user cfgOne 7 (some "carol") 1 dbReferrer).1 +
        cfgOne.REFERRAL_REWARD ∧
    (start_cmd cfgOne 7 (some "carol") ["r42"] 1 dbReferrer).transactions =
      (ensure_user cfgOne 7 (some "carol") 1 dbReferrer).1.transactions ++
        [⟨42, "referral", cfgOne.REFERRAL_REWARD, "referred " ++ toString (7 : Int), 1⟩,
         ⟨7, "referral", cfgOne.REFERRAL_REWARD, "referred_by " ++ toString (42 : Int), 1⟩] := by
  have h := claim_C6_referral_applies cfgOne 7 (some "carol") "r42" [] 1 dbReferrer
    ⟨42, "bob", "r42", none, 1, 0⟩ (freshUser cfgOne 7 (some "carol") 1)
    (by decide) (by decide) (by decide) rfl
  exact h

/-!
## Sequences of engine operations (for the reconciliation claim)
-/

/-- The engine operations named by the reconciliation claim: provision,
credit, absolute set, debit. -/
inductive Op where
  | ensure (tg_id : Int) (username : Option String) (now : Nat)
  | award (tg_id : Int) (amount : Int) (kind : String) (note : String) (now : Nat)
  | setc (tg_id : Int) (amount : Int) (now : Nat)
  | deduct (tg_id : Int) (amount : Int) (now : Nat)
deriving Repr, DecidableEq

/-- One engine operation against the datastore (results discarded). -/
def applyOp (cfg : Config) (db : DB) : Op → DB
  | Op.ensure i u n => (ensure_user cfg i u n db).1
  | Op.award i a k nt n => award_coins i a k nt n db
  | Op.setc i a n => set_coins i a n db
  | Op.deduct i a n => (deduct_coins i a n db).1

/-- A sequence of engine operations, applied oldest first. -/
def runOps (cfg : Config) (db : DB) (ops : List Op) : DB :=
  ops.foldl (applyOp cfg) db

/-- Guard of the amended reconciliation claim: a credit or absolute set
targets an identity that has an account at that point, and a credit does
not use the reserved `admin_set` kind.  Every call site in the source
satisfies this (`addcoin_cmd` and `setcoins_cmd` look the user up first
and pass kind `admin_adjust`; referral credits target accounts found in
the table). -/
def opOK (db : DB) : Op → Prop
  | Op.award i _ k _ _ => (get_user_by_tg i db).isSome ∧ k ≠ "admin_set"
  | Op.setc i _ _ => (get_user_by_tg i db).isSome = true
  | _ => True

/-- Every operation of the sequence satisfies `opOK` in the state it
executes in. -/
inductive OpsOK (cfg : Config) : DB → List Op → Prop
  | nil (db : DB) : OpsOK cfg db []
  | cons (db : DB) (o : Op) (ops : List Op) : opOK db o →
      OpsOK cfg (applyOp cfg db o) ops → OpsOK cfg db (o :: ops)

/-- The reconciliation invariant: every identity's balance equals the
replay of its transaction log. -/
def Recon (db : DB) : Prop :=
  ∀ i, get_balance i db = reconcile i db.transactions

theorem reconcile_append_one (i : Int) (txns : List Txn) (t : Txn) :
    reconcile i (txns ++ [t]) = reconStep i (reconcile i txns) t := by
  unfold reconcile
  rw [List.foldl_append]
  rfl

theorem reconStep_self_delta (j : Int) (acc : Int) (t : Txn)
    (hid : t.telegram_id = j) (hk : t.kind ≠ "admin_set") :
    reconStep j acc t = acc + t.amount := by
  unfold reconStep
  rw [if_pos (by simp [hid]), if_neg (by simp [hk])]

theorem reconStep_self_reset (j : Int) (acc : Int) (t : Txn)
    (hid : t.telegram_id = j) (hk : t.kind = "admin_set") :
    reconStep j acc t = t.amount := by
  unfold reconStep
  rw [if_pos (by simp [hid]), if_pos (by simp [hk])]

theorem reconStep_other (j : Int) (acc : Int) (t : Txn)
    (hid : t.telegram_id ≠ j) : reconStep j acc t = acc := by
  unfold reconStep
  rw [if_neg (by simp [hid])]

theorem get_user_by_tg_ensure_other (cfg : Config) (i j : Int) (hji : j ≠ i)
    (uname : Option String) (now : Nat) (db : DB) :
    get_user_by_tg j (ensure_user cfg i uname now db).1 = get_user_by_tg j db := by
  by_cases hp : (get_user_by_tg i db).isSome
  · rw [ensure_user_of_present cfg i uname now db hp]
  · have hn := Option.not_isSome_iff_eq_none.mp hp
    rw [ensure_user_of_absent cfg i uname now db hn]
    show ((db.users ++ [freshUser cfg i uname now]).find? fun u => u.telegram_id == j) = _
    rw [List.find?_append]
    have hsingle : (([freshUser cfg i uname now]).find? fun u => u.telegram_id == j) =
        none := by
      rw [List.find?_cons_of_neg]
      · rfl
      · show ¬ ((freshUser cfg i uname now).telegram_id == j) = true
        simp [freshUser, beq_iff_eq]
        exact fun h => hji h.symm
    rw [hsingle, Option.or_none]
    rfl

theorem get_balance_set_self (i a : Int) (t : Nat) (db : DB)
    (h : (get_user_by_tg i db).isSome) : get_balance i (set_coins i a t db) = a := by
  obtain ⟨u, hu⟩ := Option.isSome_iff_exists.mp h
  unfold get_balance
  rw [get_user_by_tg_set_self, hu]
  simp

theorem get_balance_set_other (i j a : Int) (hne : j ≠ i) (t : Nat) (db : DB) :
    get_balance j (set_coins i a t db) = get_balance j db := by
  unfold get_balance
  rw [get_user_by_tg_set_other i j a hne t db]

theorem deduct_coins_success (i a : Int) (t : Nat) (db : DB) (u : User)
    (hu : get_user_by_tg i db = some u) (hge : ¬ u.coins < a) :
    deduct_coins i a t db =
      ({ users := sqlUpdateUsers i (fun v => { v with coins := v.coins - a }) db.users,
         transactions := db.transactions ++ [⟨i, "search", -a, "osint_search", t⟩] },
       true, none) := by
  unfold deduct_coins
  rw [hu]
  simp only [if_neg hge]

/-- Each guarded engine operation preserves the reconciliation
invariant. -/
theorem Recon_applyOp (cfg : Config) (db : DB) (o : Op) (hok : opOK db o)
    (hR : Recon db) : Recon (applyOp cfg db o) := by
  cases o with
  | ensure i uname now =>
    by_cases hp : (get_user_by_tg i db).isSome
    · show Recon (ensure_user cfg i uname now db).1
      rw [ensure_user_of_present cfg i uname now db hp]
      exact hR
    · have hn := Option.not_isSome_iff_eq_none.mp hp
      intro j
      show get_balance j (ensure_user cfg i uname now db).1 =
        reconcile j (ensure_user cfg i uname now db).1.transactions
      have htx : (ensure_user cfg i uname now db).1.transactions =
          db.transactions ++
            [⟨i, "reward", cfg.NEW_USER_COINS, "new_user_bonus", now⟩] := by
        rw [ensure_user_of_absent cfg i uname now db hn]
      rw [htx, reconcile_append_one]
      by_cases hji : j = i
      · subst hji
        have hbl : get_balance j (ensure_user cfg j uname now db).1 =
            cfg.NEW_USER_COINS := by
          unfold get_balance
          rw [get_user_by_tg_ensure_fresh cfg j uname now db hn]
          rfl
        have h0 : reconcile j db.transactions = 0 := by
          have hb := hR j
          unfold get_balance at hb
          rw [hn] at hb
          exact hb.symm
        rw [hbl, reconStep_self_delta j (reconcile j db.transactions)
          ⟨j, "reward", cfg.NEW_USER_COINS, "new_user_bonus", now⟩ rfl
          (by exact (by decide : ("reward" : String) ≠ "admin_set")),
          h0, zero_add]
      · have hbl : get_balance j (ensure_user cfg i uname now db).1 =
            get_balance j db := by
          unfold get_balance
          rw [get_user_by_tg_ensure_other cfg i j hji uname now db]
        rw [hbl, reconStep_other j (reconcile j db.transactions)
          ⟨i, "reward", cfg.NEW_USER_COINS, "new_user_bonus", now⟩ (fun h => hji h.symm)]
        exact hR j
  | award i a k nt now =>
    obtain ⟨hex, hk⟩ := hok
    obtain ⟨u, hu⟩ := Option.isSome_iff_exists.mp hex
    intro j
    show get_balance j (award_coins i a k nt now db) =
      reconcile j (award_coins i a k nt now db).transactions
    have htx : (award_coins i a k nt now db).transactions =
        db.transactions ++ [⟨i, k, a, nt, now⟩] := rfl
    rw [htx, reconcile_append_one]
    by_cases hji : j = i
    · subst hji
      rw [get_balance_award_self j a k nt now db u hu,
        reconStep_self_delta j (reconcile j db.transactions) ⟨j, k, a, nt, now⟩ rfl hk]
      have hb : get_balance j db = u.coins := by
        unfold get_balance
        rw [hu]
      rw [← hR j, hb]
    · rw [get_balance_award_other i j a hji k nt now db,
        reconStep_other j (reconcile j db.transactions) ⟨i, k, a, nt, now⟩
          (fun h => hji h.symm)]
      exact hR j
  | setc i a now =>
    have hex : (get_user_by_tg i db).isSome = true := hok
    intro j
    show get_balance j (set_coins i a now db) =
      reconcile j (set_coins i a now db).transactions
    have htx : (set_coins i a now db).transactions =
        db.transactions ++ [⟨i, "admin_set", a, "admin_set_coins", now⟩] := rfl
    rw [htx, reconcile_append_one]
    by_cases hji : j = i
    · subst hji
      rw [get_balance_set_self j a now db hex,
        reconStep_self_reset j (reconcile j db.transactions)
          ⟨j, "admin_set", a, "admin_set_coins", now⟩ rfl rfl]
    · rw [get_balance_set_other i j a hji now db,
        reconStep_other j (reconcile j db.transactions)
          ⟨i, "admin_set", a, "admin_set_coins", now⟩ (fun h => hji h.symm)]
      exact hR j
  | deduct i a now =>
    intro j
    cases hu : get_user_by_tg i db with
    | none =>
      have hveto : deduct_coins i a now db = (db, false, some "user_not_found") := by
        unfold deduct_coins
        rw [hu]
      show get_balance j (deduct_coins i a now db).1 =
        reconcile j (deduct_coins i a now db).1.transactions
      rw [hveto]
      exact hR j
    | some u =>
      by_cases hlt : u.coins < a
      · have hveto : deduct_coins i a now db = (db, false, some "insufficient") := by
          unfold deduct_coins
          rw [hu]
          simp only [if_pos hlt]
        show get_balance j (deduct_coins i a now db).1 =
          reconcile j (deduct_coins i a now db).1.transactions
        rw [hveto]
        exact hR j
      · have hsucc := deduct_coins_success i a now db u hu hlt
        show get_balance j (deduct_coins i a now db).1 =
          reconcile j (deduct_coins i a now db).1.transactions
        rw [hsucc]
        show get_balance j (DB.mk
            (sqlUpdateUsers i (fun v => { v with coins := v.coins - a }) db.users)
            (db.transactions ++ [⟨i, "search", -a, "osint_search", now⟩])) =
          reconcile j (db.transactions ++ [⟨i, "search", -a, "osint_search", now⟩])
        rw [reconcile_append_one]
        by_cases hji : j = i
        · subst hji
          have hbl : get_balance j (DB.mk
              (sqlUpdateUsers j (fun v => { v with coins := v.coins - a }) db.users)
              (db.transactions ++ [⟨j, "search", -a, "osint_search", now⟩])) =
              u.coins - a := by
            unfold get_balance
            show (match (sqlUpdateUsers j (fun v => { v with coins := v.coins - a })
                db.users).find? (fun v => v.telegram_id == j) with
              | some v => v.coins
              | none => 0) = _
            rw [find?_tg_update_self j (fun v => { v with coins := v.coins - a })
              (fun _ => rfl) db.users]
            rw [show (db.users.find? fun v => v.telegram_id == j) = some u from hu]
            rfl
          have hb : get_balance j db = u.coins := by
            unfold get_balance
            rw [hu]
          rw [hbl, reconStep_self_delta j (reconcile j db.transactions)
            ⟨j, "search", -a, "osint_search", now⟩ rfl
            (by exact (by decide : ("search" : String) ≠ "admin_set")), ← hR j, hb]
          ring
        · have hbl : get_balance j (DB.mk
              (sqlUpdateUsers i (fun v => { v with coins := v.coins - a }) db.users)
              (db.transactions ++ [⟨i, "search", -a, "osint_search", now⟩])) =
              get_balance j db := by
            unfold get_balance
            show (match (sqlUpdateUsers i (fun v => { v with coins := v.coins - a })
                db.users).find? (fun v => v.telegram_id == j) with
              | some v => v.coins
              | none => 0) = _
            rw [find?_tg_update_other i j hji (fun v => { v with coins := v.coins - a })
              (fun _ => rfl) db.users]
            rfl
          rw [hbl, reconStep_other j (reconcile j db.transactions)
            ⟨i, "search", -a, "osint_search", now⟩ (fun h => hji h.symm)]
          exact hR j

/-- Guarded sequences preserve the invariant along the whole run. -/
theorem Recon_runOps (cfg : Config) (db : DB) (ops : List Op)
    (hok : OpsOK cfg db ops) (hR : Recon db) : Recon (runOps cfg db ops) := by
  induction ops generalizing db with
  | nil => exact hR
  | cons o os ih =>
    cases hok with
    | cons _ _ _ h1 h2 =>
      exact ih (applyOp cfg db o) h2 (Recon_applyOp cfg db o h1 hR)

theorem get_balance_update_other (i j : Int) (hji : j ≠ i) (g : User → User)
    (hg : ∀ u, (g u).telegram_id = u.telegram_id) (db : DB) (txns : List Txn) :
    get_balance j (DB.mk (sqlUpdateUsers i g db.users) txns) = get_balance j db := by
  unfold get_balance
  show (match (sqlUpdateUsers i g db.users).find? (fun v => v.telegram_id == j) with
    | some v => v.coins
    | none => 0) = _
  rw [find?_tg_update_other i j hji g hg db.users]
  rfl

/-- Every balance mutation appends exactly one transaction row: an engine
operation that changes some identity's balance extends the transaction
log by exactly one row, and that row belongs to the mutated identity.
This holds for every operation, guarded or not. -/
theorem applyOp_mutation_logged (cfg : Config) (db : DB) (o : Op) (j : Int)
    (hch : get_balance j (applyOp cfg db o) ≠ get_balance j db) :
    ∃ t, (applyOp cfg db o).transactions = db.transactions ++ [t] ∧
      t.telegram_id = j := by
  cases o with
  | ensure i uname now =>
    by_cases hp : (get_user_by_tg i db).isSome
    · exfalso
      apply hch
      show get_balance j (ensure_user cfg i uname now db).1 = get_balance j db
      rw [ensure_user_of_present cfg i uname now db hp]
    · have hn := Option.not_isSome_iff_eq_none.mp hp
      by_cases hji : j = i
      · subst hji
        refine ⟨⟨j, "reward", cfg.NEW_USER_COINS, "new_user_bonus", now⟩, ?_, rfl⟩
        show (ensure_user cfg j uname now db).1.transactions = _
        rw [ensure_user_of_absent cfg j uname now db hn]
      · exfalso
        apply hch
        show get_balance j (ensure_user cfg i uname now db).1 = get_balance j db
        unfold get_balance
        rw [get_user_by_tg_ensure_other cfg i j hji uname now db]
  | award i a k nt now =>
    by_cases hji : j = i
    · subst hji
      exact ⟨⟨j, k, a, nt, now⟩, rfl, rfl⟩
    · exfalso
      exact hch (get_balance_award_other i j a hji k nt now db)
  | setc i a now =>
    by_cases hji : j = i
    · subst hji
      exact ⟨⟨j, "admin_set", a, "admin_set_coins", now⟩, rfl, rfl⟩
    · exfalso
      exact hch (get_balance_set_other i j a hji now db)
  | deduct i a now =>
    cases hu : get_user_by_tg i db with
    | none =>
      exfalso
      apply hch
      have hveto : deduct_coins i a now db = (db, false, some "user_not_found") := by
        unfold deduct_coins
        rw [hu]
      show get_balance j (deduct_coins i a now db).1 = get_balance j db
      rw [hveto]
    | some u =>
      by_cases hlt : u.coins < a
      · exfalso
        apply hch
        have hveto : deduct_coins i a now db = (db, false, some "insufficient") := by
          unfold deduct_coins
          rw [hu]
          simp only [if_pos hlt]
        show get_balance j (deduct_coins i a now db).1 = get_balance j db
        rw [hveto]
      · have hsucc := deduct_coins_success i a now db u hu hlt
        by_cases hji : j = i
        · subst hji
          refine ⟨⟨j, "search", -a, "osint_search", now⟩, ?_, rfl⟩
          show (deduct_coins j a now db).1.transactions = _
          rw [hsucc]
        · exfalso
          apply hch
          show get_balance j (deduct_coins i a now db).1 = get_balance j db
          rw [hsucc]
          exact get_balance_update_other i j hji
            (fun v => { v with coins := v.coins - a }) (fun _ => rfl) db
            (db.transactions ++ [⟨i, "search", -a, "osint_search", now⟩])

/-- Counterexample to claim C3 as stated (over all operation sequences):
a single credit to an identity with no account appends a transaction row
yet changes no balance, so afterwards the balance (0) differs from the
replayed transaction log (5). -/
theorem claim_C3_counterexample :
    get_balance 1 (runOps cfgOne DB.empty [Op.award 1 5 "admin_adjust" "" 0]) = 0 ∧
    reconcile 1 (runOps cfgOne DB.empty
      [Op.award 1 5 "admin_adjust" "" 0]).transactions = 5 := by
  exact ⟨rfl, rfl⟩

/-- Claim C3 (amended): over every sequence of engine operations in which
each credit and each absolute set targets an identity holding an account
at that point and credits avoid the reserved `admin_set` kind — true of
every call site in the source — each identity's balance equals the replay
of its transaction log: the most recent `admin_set` amount (or 0 if
none), plus the amounts of all of its transactions logged after it.
Moreover — unconditionally — every balance mutation appends exactly one
transaction row: any engine operation that changes some identity's
balance extends the log by exactly one row, belonging to that
identity. -/
theorem claim_C3_reconciliation (cfg : Config) (ops : List Op)
    (hok : OpsOK cfg DB.empty ops) :
    (∀ i, get_balance i (runOps cfg DB.empty ops) =
      reconcile i (runOps cfg DB.empty ops).transactions) ∧
    (∀ db o j, get_balance j (applyOp cfg db o) ≠ get_balance j db →
      ∃ t, (applyOp cfg db o).transactions = db.transactions ++ [t] ∧
        t.telegram_id = j) :=
  ⟨Recon_runOps cfg DB.empty ops hok (fun _ => rfl),
   fun db o j hch => applyOp_mutation_logged cfg db o j hch⟩

theorem claim_C3_witness :
    get_balance 1 (runOps cfgOne DB.empty
      [Op.ensure 1 (some "alice") 0, Op.award 1 5 "admin_adjust" "" 1,
       Op.setc 1 100 2, Op.deduct 1 3 3]) =
      reconcile 1 (runOps cfgOne DB.empty
        [Op.ensure 1 (some "alice") 0, Op.award 1 5 "admin_adjust" "" 1,
         Op.setc 1 100 2, Op.deduct 1 3 3]).transactions ∧
    (∃ t, (applyOp cfgOne dbOneUser (Op.deduct 1 1 0)).transactions =
      dbOneUser.transactions ++ [t] ∧ t.telegram_id = 1) := by
  have h := claim_C3_reconciliation cfgOne
    [Op.ensure 1 (some "alice") 0, Op.award 1 5 "admin_adjust" "" 1,
     Op.setc 1 100 2, Op.deduct 1 3 3]
    (OpsOK.cons _ _ _ trivial
      (OpsOK.cons _ _ _ ⟨by decide, by decide⟩
        (OpsOK.cons _ _ _ (by unfold opOK; decide)
          (OpsOK.cons _ _ _ trivial (OpsOK.nil _)))))
  exact ⟨h.1 1, h.2 dbOneUser (Op.deduct 1 1 0) 1 (by decide)⟩

/-!
## Interleaving model of `deduct_coins` (for the concurrency claim)

`deduct_coins` executes two separate SQL statements on its connection:
the SELECT of the current balance (src/main.py line 154) and — when the
guard passes — the `UPDATE users SET coins = coins - ?` plus the log
INSERT, committed together (lines 163-168).  SQLite serialises the write
transactions of concurrent connections, but nothing orders one
connection's SELECT before another's UPDATE, so the call decomposes into
two atomic steps against the shared store.
-/

/-- The SELECT step of `deduct_coins`: the balance the caller reads,
`none` when the row is missing. -/
def deduct_read (tg_id : Int) (db : DB) : Option Int :=
  (get_user_by_tg tg_id db).map User.coins

/-- The decide-and-write step of `deduct_coins`, applied to a previously
read balance: the guard compares the READ value, while the `UPDATE`
subtracts from the row's CURRENT value — exactly the source's
two-statement shape. -/
def deduct_finish (tg_id : Int) (amount : Int) (readCoins : Option Int)
    (now : Nat) (db : DB) : DB × Bool × Option String :=
  match readCoins with
  | none => (db, false, some "user_not_found")
  | some coins =>
    if coins < amount then
      (db, false, some "insufficient")
    else
      ({ users := sqlUpdateUsers tg_id (fun v => { v with coins := v.coins - amount }) db.users,
         transactions := db.transactions ++
           [⟨tg_id, "search", -amount, "osint_search", now⟩] },
       true, none)

/-- Run sequentially, read-then-finish is exactly `deduct_coins`: the
two-step decomposition refines the source function. -/
theorem deduct_coins_eq_read_finish (i a : Int) (t : Nat) (db : DB) :
    deduct_coins i a t db = deduct_finish i a (deduct_read i db) t db := by
  unfold deduct_coins deduct_finish deduct_read
  cases get_user_by_tg i db <;> rfl

/-- Claim C8 fails on the code: nothing serialises the read-modify-write
of `deduct_coins` per identity.  Interleaving two debits of 1 against a
balance of 1 as read-read-write-write makes BOTH calls report success and
drives the balance to -1, where the claim requires exactly one success,
one `insufficient` failure, and a final balance of 0, never negative. -/
theorem claim_C8_lost_update_race :
    (deduct_finish 1 1 (deduct_read 1 dbOneUser) 5 dbOneUser).2.1 = true ∧
    (deduct_finish 1 1 (deduct_read 1 dbOneUser) 6
      (deduct_finish 1 1 (deduct_read 1 dbOneUser) 5 dbOneUser).1).2.1 = true ∧
    get_balance 1 (deduct_finish 1 1 (deduct_read 1 dbOneUser) 6
      (deduct_finish 1 1 (deduct_read 1 dbOneUser) 5 dbOneUser).1).1 = -1 := by
  exact ⟨rfl, rfl, by decide⟩
